import Mathlib

/-!
Verification of the Telegram expense bot (src/index.ts) against its
natural-language specification.

The store (Supabase) is modelled as an explicit state `DB` holding the three
relations the code touches (`users`, `pending_expenses`, `expense`); each
bot handler becomes a pure state transition `DB → DB × Output`.  Amounts are
modelled as exact rationals (the spec treats amounts as decimals with at most
two fraction digits; float rounding is outside the model).  Fallible store
writes are modelled by explicit success flags, since the Supabase client
reports failure as a value (`result.error`) rather than by raising.
-/

namespace ExpenseBot

/-! ### JavaScript character classes (ECMA-262), by code point -/

/-- The regex class `\d`, i.e. the ASCII digits `0`–`9`. -/
def isDigitC (c : Char) : Bool := 48 ≤ c.toNat && c.toNat ≤ 57

/-- The regex class `\s`: ECMAScript WhiteSpace together with LineTerminator
(tab, LF, VT, FF, CR, space, NBSP, and the Unicode space separators). -/
def jsSpace (c : Char) : Bool :=
  c.toNat = 9 || c.toNat = 10 || c.toNat = 11 || c.toNat = 12 || c.toNat = 13 ||
  c.toNat = 32 || c.toNat = 160 || c.toNat = 5760 ||
  (8192 ≤ c.toNat && c.toNat ≤ 8202) ||
  c.toNat = 8232 || c.toNat = 8233 || c.toNat = 8239 || c.toNat = 8287 ||
  c.toNat = 12288 || c.toNat = 65279

/-- The ECMAScript LineTerminator characters: LF, CR, LS, PS.  These are the
characters the regex metacharacter `.` does not match (no `s` flag). -/
def jsLineTerm (c : Char) : Bool :=
  c.toNat = 10 || c.toNat = 13 || c.toNat = 8232 || c.toNat = 8233

/-- `String.prototype.trim()`: strip leading and trailing JS whitespace. -/
def jsTrim (s : List Char) : List Char :=
  ((s.dropWhile jsSpace).reverse.dropWhile jsSpace).reverse

/-- Numeric value of a block of decimal digits, most significant first (the
way `parseFloat` reads the integral and fraction digit blocks). -/
def digitsToNat (ds : List Char) : Nat :=
  ds.foldl (fun a c => a * 10 + (c.toNat - 48)) 0

/-! ### The input parser (`parseExpenseInput`, src/index.ts lines 52–62)

The source matches `^(\d+(?:\.\d{1,2})?)\s+(.+)$` (no flags), then rejects a
non-positive amount, and returns `{ amount, description: match[2].trim() }`.

The regex is compiled here into its deterministic equivalent:
* `\d+` is effectively maximal-munch: giving digits back leaves a digit in
  front of `(?:\.\d{1,2})?`/`\s+`, which match neither `.` nor whitespace,
  so shorter choices never succeed.
* after `\d+`, if the next character is `.` the optional group must consume
  `.` plus one or two digits (greedily); if a third digit follows, both the
  2-digit and the backtracked 1-digit choice leave a digit before `\s+`, so
  the whole match fails; if no digit follows the `.`, the group matches
  empty and `\s+` fails on the `.`.
* `\s+(.+)$` on the remainder `t`: `\s+` greedily takes the maximal
  whitespace prefix `w`.  If something follows `w`, `(.+)$` must cover it
  exactly, which succeeds iff it contains no LineTerminator.  If nothing
  follows (`t` is all whitespace), `\s+` backtracks one character and `(.+)`
  takes the final whitespace character, provided `t` has at least two
  characters and its last character is not a LineTerminator (a longer
  backtrack would put that character inside `(.+)` anyway). -/

/-- Match of `\s+(.+)$` against `t`, returning what `(.+)` captured. -/
def descOf (t : List Char) : Option (List Char) :=
  if (t.takeWhile jsSpace).length = 0 then none
  else if (t.dropWhile jsSpace).length ≠ 0 then
    if (t.dropWhile jsSpace).any jsLineTerm then none
    else some (t.dropWhile jsSpace)
  else if 2 ≤ t.length ∧ jsLineTerm (t.getLastD ' ') = false then
    some [t.getLastD ' ']
  else none

/-- Last step of the parser: `ds` the integral digits, `fs` the fraction
digits (possibly `[]`), `t` the text after the number.  `parseFloat` of
`ds.fs` is the exact decimal value; the source then rejects `amount <= 0`
and trims the captured description. -/
def finishParse (ds fs t : List Char) : Option (ℚ × List Char) :=
  match descOf t with
  | none => none
  | some d =>
    if (digitsToNat ds : ℚ) + (digitsToNat fs : ℚ) / (10 : ℚ) ^ fs.length ≤ 0
    then none
    else some ((digitsToNat ds : ℚ) + (digitsToNat fs : ℚ) / (10 : ℚ) ^ fs.length,
               jsTrim d)

/-- `parseExpenseInput` (src/index.ts lines 52–62), on the character list of
the message text. -/
def parseExpenseInput (s : List Char) : Option (ℚ × List Char) :=
  if (s.takeWhile isDigitC).length = 0 then none
  else if (s.dropWhile isDigitC).head? = some '.' then
    if ((s.dropWhile isDigitC).tail.takeWhile isDigitC).length = 0 then none
    else if 2 < ((s.dropWhile isDigitC).tail.takeWhile isDigitC).length then none
    else finishParse (s.takeWhile isDigitC)
      ((s.dropWhile isDigitC).tail.takeWhile isDigitC)
      ((s.dropWhile isDigitC).tail.dropWhile isDigitC)
  else finishParse (s.takeWhile isDigitC) [] (s.dropWhile isDigitC)

/-! ### The claim's grammar, stated from the spec's words

`numValue?` reads the claim's "positive decimal number with at most two
fraction digits" (positivity is checked at the use site): the whole string
must be digits, optionally followed by `.` and one or two digits. -/

/-- Value of a decimal-number literal per the spec grammar
`<digits>(.<1-2 digits>)?`, or `none` if `a` is not of that shape. -/
def numValue? (a : List Char) : Option ℚ :=
  if (a.takeWhile isDigitC).length = 0 then none
  else if (a.dropWhile isDigitC).length = 0 then some ((digitsToNat a : ℚ))
  else if (a.dropWhile isDigitC).head? = some '.' ∧
          (a.dropWhile isDigitC).tail ≠ [] ∧
          (a.dropWhile isDigitC).tail.length ≤ 2 ∧
          (a.dropWhile isDigitC).tail.all isDigitC then
    some ((digitsToNat (a.takeWhile isDigitC) : ℚ) +
          (digitsToNat ((a.dropWhile isDigitC).tail) : ℚ) /
            (10 : ℚ) ^ ((a.dropWhile isDigitC).tail.length))
  else none

/-- All decompositions `s = a ++ b ++ c`. -/
def splits3 (s : List Char) : List (List Char × List Char × List Char) :=
  (List.range (s.length + 1)).flatMap fun i =>
    (List.range (s.length + 1)).map fun j =>
      (s.take i, (s.drop i).take j, (s.drop i).drop j)

/-- The parse function claim C3 describes, word for word: succeed exactly on
`number ++ whitespace ++ remainder` with the trimmed remainder non-empty,
returning the number's value and the trimmed remainder. -/
def claimedParse (s : List Char) : Option (ℚ × List Char) :=
  (splits3 s).findSome? fun x =>
    match numValue? x.1 with
    | none => none
    | some q =>
      if 0 < q ∧ x.2.1 ≠ [] ∧ x.2.1.all jsSpace = true ∧ jsTrim x.2.2 ≠ []
      then some (q, jsTrim x.2.2) else none

/-- The amended grammar: as `claimedParse`, but the remainder need only be
non-empty and free of LineTerminator characters — its trimmed form (which is
what is returned as the description) may be empty. -/
def amendedParse (s : List Char) : Option (ℚ × List Char) :=
  (splits3 s).findSome? fun x =>
    match numValue? x.1 with
    | none => none
    | some q =>
      if 0 < q ∧ x.2.1 ≠ [] ∧ x.2.1.all jsSpace = true ∧
         x.2.2 ≠ [] ∧ x.2.2.any jsLineTerm = false
      then some (q, jsTrim x.2.2) else none

/-! ### Data model (src/index.ts: the `users`, `pending_expenses` and
`expense` relations) -/

/-- A `users` row: the per-user custom category list.  (The surrogate key
`id` is modelled by the telegram user id itself; the store keeps them in
bijection and nothing in the code distinguishes them.) -/
structure UserRow where
  customCategories : List String
deriving DecidableEq

/-- A `pending_expenses` row (unique per telegram user id). -/
structure PendingRow where
  amount : ℚ
  description : String
  createdAt : Nat
deriving DecidableEq

/-- An `expense` row.  `category` is `Option String` because the code can
insert the out-of-range lookup `categories[categoryIndex]`, i.e. JS
`undefined`, which the store records as an absent label. -/
structure Expense where
  userId : String
  amount : ℚ
  description : String
  category : Option String
  createdAt : Nat
deriving DecidableEq

/-- The store's state: the three relations used by the handlers. -/
structure DB where
  users : String → Option UserRow
  pending : String → Option PendingRow
  expenses : List Expense

/-- Everything a handler sends back over the transport (replies, callback
answers, in-place message edits), with message formatting abstracted to the
data it displays. -/
inductive Output where
  | welcome
  | noExpenses
  | expensesReport (rows : List Expense)
  | dayReport (rows : List Expense)
  | monthReport (rows : List Expense)
  | categoriesReport (rows : List Expense)
  | addUsage
  | categoryExists
  | categoryAdded (label : String)
  | addFailed
  | noCustomCategories
  | removePrompt (labels : List String)
  | invalidCategory
  | categoryRemoved (label : String)
  | removeFailed
  | cancelled
  | sessionExpired
  | saveFailed
  | saved (amount : ℚ) (description : String) (category : Option String)
deriving DecidableEq

/-- The 12 default categories (src/index.ts lines 15–28). -/
def DEFAULT_CATEGORIES : List String :=
  ["🍔 Food", "🚗 Transport", "🏠 Housing", "🎬 Entertainment",
   "🛒 Shopping", "💊 Healthcare", "📚 Education", "💼 Work",
   "✈️ Travel", "📱 Bills", "🎁 Gifts", "💰 Other"]

/-- The custom category list currently stored for `uid` (empty when the user
row is absent — the code reads `user?.custom_categories || []`). -/
def customOf (db : DB) (uid : String) : List String :=
  match db.users uid with
  | some u => u.customCategories
  | none => []

/-- `getOrCreateUser` (lines 31–42): upsert on `telegram_user_id`.  On
conflict only the key column is written, so an existing row's
`custom_categories` is untouched; a fresh row starts with no custom
categories. -/
def getOrCreateUser (db : DB) (uid : String) : DB × UserRow :=
  match db.users uid with
  | some u => (db, u)
  | none =>
    ({ users := fun v => if v = uid then some ⟨[]⟩ else db.users v,
       pending := db.pending, expenses := db.expenses }, ⟨[]⟩)

/-- `getUserCategories` (lines 45–49): defaults followed by the user's
custom categories, recomputed from the store on every call. -/
def getUserCategories (db : DB) (uid : String) : DB × List String :=
  ((getOrCreateUser db uid).1,
   DEFAULT_CATEGORIES ++ ((getOrCreateUser db uid).2).customCategories)

/-- The sweep delete (lines 402–405): remove every pending row, of every
user, strictly older than the cutoff (`created_at < now - 1h`). -/
def sweep (db : DB) (cutoff : Nat) : DB :=
  { db with pending := fun v =>
      match db.pending v with
      | some p => if p.createdAt < cutoff then none else some p
      | none => none }

/-- First half of the `cat_` branch (lines 366–376): `getOrCreateUser` and
the read of the user's pending row run in `Promise.all`; the pending read
observes the store before/concurrently with the upsert (which does not touch
`pending_expenses`, so the two orders agree). -/
def catPhase1 (db : DB) (uid : String) : DB × Option PendingRow :=
  ((getOrCreateUser db uid).1, db.pending uid)

/-- Second half of the `cat_` branch (lines 378–420).  With no pending row
the handler only answers "session expired".  Otherwise it resolves the
category by plain indexing (no bounds check: out of range gives `none`, JS
`undefined`), then runs in `Promise.all`: the `expense` insert, the delete
of this user's pending row, and the stale-row sweep; only the insert's error
is consulted for the user-visible outcome.  `iOk`/`dOk`/`sOk` are the
success flags of those three store writes. -/
def catPhase2 (db : DB) (uid : String) (pending : Option PendingRow)
    (idx now : Nat) (iOk dOk sOk : Bool) : DB × Output :=
  match pending with
  | none => (db, Output.sessionExpired)
  | some p =>
    let db1 := (getUserCategories db uid).1
    let category := (getUserCategories db uid).2[idx]?
    let db2 := if iOk then
        { db1 with expenses :=
            db1.expenses ++ [⟨uid, p.amount, p.description, category, now⟩] }
      else db1
    let db3 := if dOk then
        { db2 with pending := fun v => if v = uid then none else db2.pending v }
      else db2
    let db4 := if sOk then sweep db3 (now - 3600000) else db3
    (db4, if iOk then Output.saved p.amount p.description category
          else Output.saveFailed)

/-- The whole `cat_` branch of the callback handler (lines 361–421). -/
def handleCategorySelection (db : DB) (uid : String) (idx now : Nat)
    (iOk dOk sOk : Bool) : DB × Output :=
  catPhase2 (catPhase1 db uid).1 uid (catPhase1 db uid).2 idx now iOk dOk sOk

/-- `/start` (lines 84–99): a fixed reply, no store access. -/
def handleStart (db : DB) : DB × Output := (db, Output.welcome)

/-- `/expenses` (lines 102–129): upsert the user, read that user's expenses
newest first limited to 20, reply. -/
def handleExpenses (db : DB) (uid : String) : DB × Output :=
  ((getOrCreateUser db uid).1,
   if ((db.expenses.filter (fun e => e.userId == uid)).reverse.take 20) = []
   then Output.noExpenses
   else Output.expensesReport
     ((db.expenses.filter (fun e => e.userId == uid)).reverse.take 20))

/-- `/day` (lines 132–165): upsert the user, read that user's expenses with
`created_at >= startOfDay`, reply. -/
def handleDay (db : DB) (uid : String) (startOfDay : Nat) : DB × Output :=
  ((getOrCreateUser db uid).1,
   if (db.expenses.filter
        (fun e => e.userId == uid && decide (startOfDay ≤ e.createdAt))) = []
   then Output.noExpenses
   else Output.dayReport
     (db.expenses.filter
        (fun e => e.userId == uid && decide (startOfDay ≤ e.createdAt))))

/-- `/month` (lines 168–208): same shape with the month cutoff. -/
def handleMonth (db : DB) (uid : String) (startOfMonth : Nat) : DB × Output :=
  ((getOrCreateUser db uid).1,
   if (db.expenses.filter
        (fun e => e.userId == uid && decide (startOfMonth ≤ e.createdAt))) = []
   then Output.noExpenses
   else Output.monthReport
     (db.expenses.filter
        (fun e => e.userId == uid && decide (startOfMonth ≤ e.createdAt))))

/-- `/categories` (lines 211–247): upsert the user, read all of that user's
expenses, reply. -/
def handleCategoriesCmd (db : DB) (uid : String) : DB × Output :=
  ((getOrCreateUser db uid).1,
   if (db.expenses.filter (fun e => e.userId == uid)) = []
   then Output.noExpenses
   else Output.categoriesReport (db.expenses.filter (fun e => e.userId == uid)))

/-- `/add` (lines 250–293).  `categoryText` is the argument text after the
command, whitespace-normalised and trimmed by the handler's extraction step.
Empty arguments get the usage hint.  Otherwise: read the user's current
custom list, recompute the full effective list, reject an exact duplicate,
else append and write back (`ok` is the write's success flag). -/
def handleAdd (db : DB) (uid : String) (categoryText : String) (ok : Bool) :
    DB × Output :=
  if categoryText = "" then (db, Output.addUsage)
  else if (getUserCategories (getOrCreateUser db uid).1 uid).2.contains categoryText
  then ((getUserCategories (getOrCreateUser db uid).1 uid).1, Output.categoryExists)
  else if ok then
    ({ (getUserCategories (getOrCreateUser db uid).1 uid).1 with
        users := fun v =>
          if v = uid then
            some ⟨((getOrCreateUser db uid).2).customCategories ++ [categoryText]⟩
          else ((getUserCategories (getOrCreateUser db uid).1 uid).1).users v },
     Output.categoryAdded categoryText)
  else ((getUserCategories (getOrCreateUser db uid).1 uid).1, Output.addFailed)

/-- `/remove` (lines 296–317): show the removal keyboard (or the
no-custom-categories notice); no store mutation. -/
def handleRemoveCmd (db : DB) (uid : String) : DB × Output :=
  if ((getOrCreateUser db uid).2).customCategories = []
  then ((getOrCreateUser db uid).1, Output.noCustomCategories)
  else ((getOrCreateUser db uid).1,
        Output.removePrompt ((getOrCreateUser db uid).2).customCategories)

/-- The `remove_` branch of the callback handler (lines 422–450): bounds
check against the current custom list, then remove by index with
`filter((_, i) => i !== categoryIndex)` and write back (`ok` is the write's
success flag). -/
def handleRemoveSelect (db : DB) (uid : String) (idx : Nat) (ok : Bool) :
    DB × Output :=
  if ((getOrCreateUser db uid).2).customCategories.length ≤ idx then
    ((getOrCreateUser db uid).1, Output.invalidCategory)
  else if ok then
    ({ (getOrCreateUser db uid).1 with
        users := fun v =>
          if v = uid then
            some ⟨((((getOrCreateUser db uid).2).customCategories.enum.filter
                     (fun p => p.1 != idx)).map Prod.snd)⟩
          else ((getOrCreateUser db uid).1).users v },
     Output.categoryRemoved (((getOrCreateUser db uid).2).customCategories.getD idx ""))
  else ((getOrCreateUser db uid).1, Output.removeFailed)

/-! ### Concrete states for witnesses and counterexamples -/

/-- A store with one user `"u"` owning one custom category and one pending
expense, and an empty ledger. -/
def dbEx : DB where
  users := fun v => if v = "u" then some ⟨["🎮 Gaming"]⟩ else none
  pending := fun v => if v = "u" then some ⟨50, "lunch", 1000⟩ else none
  expenses := []

/-- A store with no rows at all. -/
def dbEmpty : DB where
  users := fun _ => none
  pending := fun _ => none
  expenses := []

/-- A store with two users, both with a pending row; `"v"`'s pending row is
old (created at time 0). -/
def dbTwo : DB where
  users := fun v => if v = "u" then some ⟨[]⟩ else if v = "v" then some ⟨[]⟩ else none
  pending := fun w =>
    if w = "u" then some ⟨25, "coffee", 7000000⟩
    else if w = "v" then some ⟨3, "tea", 0⟩ else none
  expenses := []

/-- A store where `"u"` has custom categories `["A", "B", "C"]`. -/
def dbABC : DB where
  users := fun v => if v = "u" then some ⟨["A", "B", "C"]⟩ else none
  pending := fun _ => none
  expenses := []

/-! ### Helper lemmas: character classes -/

theorem jsSpace_not_digit {c : Char} (h : jsSpace c = true) : isDigitC c = false := by
  simp only [jsSpace, Bool.or_eq_true, decide_eq_true_eq, Bool.and_eq_true] at h
  simp only [isDigitC, Bool.and_eq_false_iff, decide_eq_false_iff_not, not_le]
  omega

theorem jsSpace_ne_dot {c : Char} (h : jsSpace c = true) : c ≠ '.' := by
  intro hc
  subst hc
  exact absurd h (by decide)

/-! ### Helper lemmas: takeWhile / dropWhile -/

theorem takeWhile_app {p : Char → Bool} {xs : List Char} (ys : List Char)
    (h : xs.all p = true) : (xs ++ ys).takeWhile p = xs ++ ys.takeWhile p := by
  induction xs with
  | nil => simp
  | cons a l ih =>
    simp only [List.all_cons, Bool.and_eq_true] at h
    simp [List.takeWhile_cons, h.1, ih h.2]

theorem dropWhile_app {p : Char → Bool} {xs : List Char} (ys : List Char)
    (h : xs.all p = true) : (xs ++ ys).dropWhile p = ys.dropWhile p := by
  induction xs with
  | nil => simp
  | cons a l ih =>
    simp only [List.all_cons, Bool.and_eq_true] at h
    simp [List.dropWhile_cons, h.1, ih h.2]

theorem takeWhile_eq_self {p : Char → Bool} {xs : List Char}
    (h : xs.all p = true) : xs.takeWhile p = xs := by
  have h2 := @takeWhile_app p xs [] h
  simpa using h2

theorem dropWhile_eq_nil {p : Char → Bool} {xs : List Char}
    (h : xs.all p = true) : xs.dropWhile p = [] := by
  have h2 := @dropWhile_app p xs [] h
  simpa using h2

theorem all_of_dropWhile_nil {p : Char → Bool} {xs : List Char}
    (h : xs.dropWhile p = []) : xs.all p = true := by
  induction xs with
  | nil => simp
  | cons a l ih =>
    rw [List.dropWhile_cons] at h
    by_cases hp : p a = true
    · rw [if_pos hp] at h
      simp [List.all_cons, hp, ih h]
    · rw [if_neg hp] at h
      exact absurd h (by simp)

theorem all_takeWhile (p : Char → Bool) (l : List Char) :
    (l.takeWhile p).all p = true := by
  induction l with
  | nil => simp
  | cons a t ih =>
    rw [List.takeWhile_cons]
    by_cases hp : p a = true
    · simp [hp, ih]
    · simp [hp]

theorem dropWhile_idem (p : Char → Bool) (l : List Char) :
    (l.dropWhile p).dropWhile p = l.dropWhile p := by
  induction l with
  | nil => simp
  | cons a t ih =>
    rw [List.dropWhile_cons]
    by_cases hp : p a = true
    · simp [hp, ih]
    · simp [List.dropWhile_cons, hp]

theorem any_dropWhile_false {p q : Char → Bool} {l : List Char}
    (h : l.any q = false) : (l.dropWhile p).any q = false := by
  rw [List.any_eq_false] at h ⊢
  intro x hx
  exact h x ((List.dropWhile_sublist p).mem hx)

/-! ### Helper lemmas: getLastD -/

theorem getLastD_cons_cons (a b : Char) (l : List Char) (d : Char) :
    (a :: b :: l).getLastD d = (b :: l).getLastD a := rfl

theorem getLastD_default_irrel {l : List Char} (h : l ≠ []) (d1 d2 : Char) :
    l.getLastD d1 = l.getLastD d2 := by
  rw [List.getLastD_eq_getLast?, List.getLastD_eq_getLast?,
    List.getLast?_eq_getLast l h]
  rfl

theorem getLastD_append {c : List Char} (b : List Char) (d : Char) (h : c ≠ []) :
    (b ++ c).getLastD d = c.getLastD d := by
  induction b generalizing d with
  | nil => rfl
  | cons a t ih =>
    cases t with
    | nil =>
      cases c with
      | nil => exact absurd rfl h
      | cons x xs =>
        rw [List.singleton_append, getLastD_cons_cons]
        exact getLastD_default_irrel h a d
    | cons a2 t2 =>
      rw [List.cons_append, List.cons_append, getLastD_cons_cons,
        ← List.cons_append, ih a]
      exact getLastD_default_irrel h a d

theorem getLastD_mem {l : List Char} (d : Char) (h : l ≠ []) :
    l.getLastD d ∈ l := by
  rw [List.getLastD_eq_getLast?, List.getLast?_eq_getLast l h]
  exact List.getLast_mem h

theorem dropLast_append_getLastD {l : List Char} (d : Char) (h : l ≠ []) :
    l.dropLast ++ [l.getLastD d] = l := by
  rw [List.getLastD_eq_getLast?, List.getLast?_eq_getLast l h]
  exact List.dropLast_append_getLast h

/-! ### Helper lemmas: jsTrim -/

theorem jsTrim_dropWhile (c : List Char) : jsTrim (c.dropWhile jsSpace) = jsTrim c := by
  simp [jsTrim, dropWhile_idem]

theorem jsTrim_all_space {l : List Char} (h : l.all jsSpace = true) :
    jsTrim l = [] := by
  simp [jsTrim, dropWhile_eq_nil h]

/-! ### Correspondence between `descOf` and `\s+(.+)$` on a split
`whitespace ++ remainder` -/

theorem descOf_bc {b c : List Char} (hb : b ≠ []) (hbs : b.all jsSpace = true)
    (hc : c ≠ []) (hcl : c.any jsLineTerm = false) :
    ∃ dsc, descOf (b ++ c) = some dsc ∧ jsTrim dsc = jsTrim c := by
  have htw : (b ++ c).takeWhile jsSpace = b ++ c.takeWhile jsSpace :=
    takeWhile_app c hbs
  have hdw : (b ++ c).dropWhile jsSpace = c.dropWhile jsSpace :=
    dropWhile_app c hbs
  have h1 : ¬ ((b ++ c).takeWhile jsSpace).length = 0 := by
    rw [htw, List.length_eq_zero]
    intro hx
    exact hb (List.append_eq_nil.mp hx).1
  by_cases hr : c.dropWhile jsSpace = []
  · -- the whole remainder is whitespace: `(.+)` captures the last character
    have hcall : c.all jsSpace = true := all_of_dropWhile_nil hr
    have h2 : ¬ ((b ++ c).dropWhile jsSpace).length ≠ 0 := by
      rw [hdw, hr]
      simp
    have hlen : 2 ≤ (b ++ c).length := by
      rw [List.length_append]
      have := List.length_pos.mpr hb
      have := List.length_pos.mpr hc
      omega
    have hlast : (b ++ c).getLastD ' ' = c.getLastD ' ' := getLastD_append b ' ' hc
    have hlmem : c.getLastD ' ' ∈ c := getLastD_mem ' ' hc
    have hnoterm : jsLineTerm (c.getLastD ' ') = false := by
      rw [List.any_eq_false] at hcl
      exact Bool.eq_false_iff.mpr (hcl _ hlmem)
    refine ⟨[c.getLastD ' '], ?_, ?_⟩
    · unfold descOf
      rw [if_neg h1, if_neg h2, hlast, if_pos ⟨hlen, hnoterm⟩]
    · have hsp : jsSpace (c.getLastD ' ') = true :=
        List.all_eq_true.mp hcall _ hlmem
      rw [jsTrim_all_space (by rw [List.all_cons, List.all_nil, hsp]; rfl),
        jsTrim_all_space hcall]
  · -- something follows the whitespace: `(.+)` captures up to the end
    have h2 : ((b ++ c).dropWhile jsSpace).length ≠ 0 := by
      rw [hdw, Ne, List.length_eq_zero]
      exact hr
    have hterm : ((b ++ c).dropWhile jsSpace).any jsLineTerm = false := by
      rw [hdw]
      exact any_dropWhile_false hcl
    refine ⟨c.dropWhile jsSpace, ?_, jsTrim_dropWhile c⟩
    unfold descOf
    rw [if_neg h1, if_pos h2, if_neg (by simp [hterm]), hdw]

theorem descOf_inv {t dsc : List Char} (h : descOf t = some dsc) :
    ∃ b c, t = b ++ c ∧ b ≠ [] ∧ b.all jsSpace = true ∧ c ≠ [] ∧
      c.any jsLineTerm = false ∧ jsTrim dsc = jsTrim c := by
  unfold descOf at h
  split_ifs at h with h1 h2 h3 h4
  · -- `(.+)` captured everything after the maximal whitespace prefix
    obtain rfl : t.dropWhile jsSpace = dsc := Option.some.inj h
    refine ⟨t.takeWhile jsSpace, t.dropWhile jsSpace,
      (List.takeWhile_append_dropWhile jsSpace t).symm, ?_, all_takeWhile jsSpace t,
      ?_, ?_, rfl⟩
    · rw [Ne, ← List.length_eq_zero]
      exact h1
    · rw [Ne, ← List.length_eq_zero]
      exact h2
    · exact Bool.eq_false_iff.mpr h3
  · -- all-whitespace remainder: `(.+)` captured the final character
    obtain rfl : [t.getLastD ' '] = dsc := Option.some.inj h
    obtain ⟨hlen, hterm⟩ := h4
    have htne : t ≠ [] := by
      intro hx
      subst hx
      simp at hlen
    have hdwnil : t.dropWhile jsSpace = [] :=
      List.length_eq_zero.mp (not_ne_iff.mp h2)
    have hall : t.all jsSpace = true := all_of_dropWhile_nil hdwnil
    refine ⟨t.dropLast, [t.getLastD ' '], (dropLast_append_getLastD ' ' htne).symm,
      ?_, ?_, by simp, by rw [List.any_cons, List.any_nil, hterm]; rfl, rfl⟩
    · rw [Ne, ← List.length_eq_zero, List.length_dropLast]
      omega
    · rw [List.all_eq_true]
      intro x hx
      exact List.all_eq_true.mp hall x ((List.dropLast_sublist t).subset hx)

/-! ### Inversion and computation for `numValue?` -/

theorem numValue?_digits {a : List Char} (h1 : a ≠ []) (h2 : a.all isDigitC = true) :
    numValue? a = some ((digitsToNat a : ℚ)) := by
  unfold numValue?
  rw [takeWhile_eq_self h2, dropWhile_eq_nil h2]
  rw [if_neg (by rw [List.length_eq_zero]; exact h1)]
  simp

theorem numValue?_frac {ip f : List Char} (hip : ip ≠ []) (hipd : ip.all isDigitC = true)
    (hf : f ≠ []) (hf2 : f.length ≤ 2) (hfd : f.all isDigitC = true) :
    numValue? (ip ++ '.' :: f) =
      some ((digitsToNat ip : ℚ) + (digitsToNat f : ℚ) / (10 : ℚ) ^ f.length) := by
  have hdot : isDigitC '.' = false := by decide
  have htw : (ip ++ '.' :: f).takeWhile isDigitC = ip := by
    rw [takeWhile_app _ hipd, List.takeWhile_cons, if_neg (by simp [hdot])]
    simp
  have hdw : (ip ++ '.' :: f).dropWhile isDigitC = '.' :: f := by
    rw [dropWhile_app _ hipd, List.dropWhile_cons, if_neg (by simp [hdot])]
  unfold numValue?
  rw [htw, hdw]
  rw [if_neg (by rw [List.length_eq_zero]; exact hip), if_neg (by simp),
    if_pos ⟨rfl, by simpa using hf, by simpa using hf2, by simpa using hfd⟩]
  rfl

theorem numValue?_inv {a : List Char} {q : ℚ} (h : numValue? a = some q) :
    (a ≠ [] ∧ a.all isDigitC = true ∧ q = (digitsToNat a : ℚ)) ∨
    (∃ ip f, a = ip ++ '.' :: f ∧ ip ≠ [] ∧ ip.all isDigitC = true ∧ f ≠ [] ∧
      f.length ≤ 2 ∧ f.all isDigitC = true ∧
      q = (digitsToNat ip : ℚ) + (digitsToNat f : ℚ) / (10 : ℚ) ^ f.length) := by
  unfold numValue? at h
  split_ifs at h with h1 h2 h3
  · -- no character after the digit prefix: all digits
    left
    have hdw : a.dropWhile isDigitC = [] := List.length_eq_zero.mp h2
    have hall : a.all isDigitC = true := all_of_dropWhile_nil hdw
    refine ⟨?_, hall, (Option.some.inj h).symm⟩
    intro hx
    subst hx
    simp at h1
  · -- a dot and one or two fraction digits follow
    right
    obtain ⟨hhead, htail, hlen, hall⟩ := h3
    cases hr : a.dropWhile isDigitC with
    | nil => rw [hr] at h2; simp at h2
    | cons y ys =>
      rw [hr] at hhead htail hlen hall
      have hy : y = '.' := by simpa using hhead
      subst hy
      refine ⟨a.takeWhile isDigitC, ys, ?_, ?_, all_takeWhile isDigitC a,
        by simpa using htail, by simpa using hlen, by simpa using hall, ?_⟩
      · rw [← hr, List.takeWhile_append_dropWhile]
      · rw [Ne, ← List.length_eq_zero]
        exact h1
      · rw [hr] at h
        exact (Option.some.inj h).symm

/-! ### Inversion and computation for `finishParse` -/

theorem finishParse_inv {ds fs t : List Char} {q : ℚ} {d : List Char}
    (h : finishParse ds fs t = some (q, d)) :
    ∃ dsc, descOf t = some dsc ∧
      q = (digitsToNat ds : ℚ) + (digitsToNat fs : ℚ) / (10 : ℚ) ^ fs.length ∧
      0 < q ∧ d = jsTrim dsc := by
  unfold finishParse at h
  cases hd : descOf t with
  | none => rw [hd] at h; exact absurd h (by simp)
  | some dsc =>
    rw [hd] at h
    simp only [] at h
    split_ifs at h with hle
    · have hqd := Option.some.inj h
      have hq : q = (digitsToNat ds : ℚ) + (digitsToNat fs : ℚ) / (10 : ℚ) ^ fs.length :=
        (congrArg Prod.fst hqd).symm
      have hdd : d = jsTrim dsc := (congrArg Prod.snd hqd).symm
      exact ⟨dsc, rfl, hq, hq ▸ not_le.mp hle, hdd⟩

theorem finishParse_eq {ds fs t dsc : List Char}
    (hd : descOf t = some dsc)
    (hq : 0 < (digitsToNat ds : ℚ) + (digitsToNat fs : ℚ) / (10 : ℚ) ^ fs.length) :
    finishParse ds fs t =
      some ((digitsToNat ds : ℚ) + (digitsToNat fs : ℚ) / (10 : ℚ) ^ fs.length,
            jsTrim dsc) := by
  unfold finishParse
  rw [hd]
  simp only []
  rw [if_neg (not_le.mpr hq)]

/-! ### The split enumeration -/

theorem mem_splits3 {s : List Char} {x : List Char × List Char × List Char}
    (h : x ∈ splits3 s) : s = x.1 ++ x.2.1 ++ x.2.2 := by
  unfold splits3 at h
  rw [List.mem_flatMap] at h
  obtain ⟨i, _, hx⟩ := h
  rw [List.mem_map] at hx
  obtain ⟨j, _, rfl⟩ := hx
  conv_lhs => rw [← List.take_append_drop i s, ← List.take_append_drop j (s.drop i)]
  rw [List.append_assoc]

theorem splits3_complete (a b c : List Char) : (a, b, c) ∈ splits3 (a ++ b ++ c) := by
  unfold splits3
  rw [List.mem_flatMap]
  refine ⟨a.length, ?_, ?_⟩
  · rw [List.mem_range]
    simp [List.length_append]
    omega
  · rw [List.mem_map]
    refine ⟨b.length, ?_, ?_⟩
    · rw [List.mem_range]
      simp [List.length_append]
      omega
    · rw [List.append_assoc, List.take_left, List.drop_left, List.take_left,
        List.drop_left]

/-! ### The parser agrees with the amended grammar -/

theorem parse_of_split {a b c : List Char} {q : ℚ}
    (hn : numValue? a = some q) (hq : 0 < q) (hb : b ≠ [])
    (hbs : b.all jsSpace = true) (hc : c ≠ []) (hcl : c.any jsLineTerm = false) :
    parseExpenseInput (a ++ b ++ c) = some (q, jsTrim c) := by
  obtain ⟨bh, bt, rfl⟩ : ∃ bh bt, b = bh :: bt := by
    cases b with
    | nil => exact absurd rfl hb
    | cons x xs => exact ⟨x, xs, rfl⟩
  have hbh : jsSpace bh = true := by
    rw [List.all_cons, Bool.and_eq_true] at hbs
    exact hbs.1
  have hbtall : bt.all jsSpace = true := by
    rw [List.all_cons, Bool.and_eq_true] at hbs
    exact hbs.2
  have hbhd : isDigitC bh = false := jsSpace_not_digit hbh
  have hbhdot : bh ≠ '.' := jsSpace_ne_dot hbh
  obtain ⟨dsc, hdsc, htr⟩ := descOf_bc hb hbs hc hcl
  rcases numValue?_inv hn with ⟨ha, had, hqv⟩ | ⟨ip, f, rfl, hip, hipd, hf, hf2, hfd, hqv⟩
  · -- integral number
    have hs : a ++ (bh :: bt) ++ c = a ++ (bh :: (bt ++ c)) := by
      rw [List.append_assoc, List.cons_append]
    have htw : (a ++ (bh :: (bt ++ c))).takeWhile isDigitC = a := by
      rw [takeWhile_app _ had, List.takeWhile_cons, if_neg (by simp [hbhd])]
      simp
    have hdw : (a ++ (bh :: (bt ++ c))).dropWhile isDigitC = bh :: (bt ++ c) := by
      rw [dropWhile_app _ had, List.dropWhile_cons, if_neg (by simp [hbhd])]
    rw [hs]
    unfold parseExpenseInput
    rw [htw, hdw]
    rw [if_neg (by rw [List.length_eq_zero]; exact ha),
      if_neg (by simp [hbhdot])]
    have hbc : bh :: (bt ++ c) = (bh :: bt) ++ c := by rw [List.cons_append]
    rw [hbc, finishParse_eq hdsc (by simpa [digitsToNat, hqv] using hq)]
    rw [htr]
    have : (digitsToNat a : ℚ) + (digitsToNat ([] : List Char) : ℚ) /
        (10 : ℚ) ^ ([] : List Char).length = q := by
      simp [digitsToNat, hqv]
    rw [this]
  · -- number with a fraction part
    have hs : (ip ++ '.' :: f) ++ (bh :: bt) ++ c =
        ip ++ ('.' :: (f ++ (bh :: (bt ++ c)))) := by
      rw [List.append_assoc, List.append_assoc, List.cons_append, List.cons_append]
    have htw : (ip ++ ('.' :: (f ++ (bh :: (bt ++ c))))).takeWhile isDigitC = ip := by
      rw [takeWhile_app _ hipd, List.takeWhile_cons, if_neg (by decide)]
      simp
    have hdw : (ip ++ ('.' :: (f ++ (bh :: (bt ++ c))))).dropWhile isDigitC =
        '.' :: (f ++ (bh :: (bt ++ c))) := by
      rw [dropWhile_app _ hipd, List.dropWhile_cons, if_neg (by decide)]
    have htwf : (f ++ (bh :: (bt ++ c))).takeWhile isDigitC = f := by
      rw [takeWhile_app _ hfd, List.takeWhile_cons, if_neg (by simp [hbhd])]
      simp
    have hdwf : (f ++ (bh :: (bt ++ c))).dropWhile isDigitC = bh :: (bt ++ c) := by
      rw [dropWhile_app _ hfd, List.dropWhile_cons, if_neg (by simp [hbhd])]
    rw [hs]
    unfold parseExpenseInput
    rw [htw, hdw]
    simp only [List.head?_cons, List.tail_cons]
    rw [if_neg (by rw [List.length_eq_zero]; exact hip), if_pos trivial, htwf, hdwf]
    rw [if_neg (by rw [List.length_eq_zero]; exact hf), if_neg (by omega)]
    have hbc : bh :: (bt ++ c) = (bh :: bt) ++ c := by rw [List.cons_append]
    rw [hbc, finishParse_eq hdsc (hqv ▸ hq), htr, ← hqv]

theorem split_of_parse {s : List Char} {q : ℚ} {d : List Char}
    (h : parseExpenseInput s = some (q, d)) :
    ∃ a b c, s = a ++ b ++ c ∧ numValue? a = some q ∧ 0 < q ∧ b ≠ [] ∧
      b.all jsSpace = true ∧ c ≠ [] ∧ c.any jsLineTerm = false ∧ d = jsTrim c := by
  unfold parseExpenseInput at h
  split_ifs at h with h1 h2 h3 h4
  · -- fraction shape
    obtain ⟨dsc, hdsc, hq, hqpos, hdd⟩ := finishParse_inv h
    obtain ⟨b, c, hbc, hb, hbs, hc, hcl, htr⟩ := descOf_inv hdsc
    cases hr : s.dropWhile isDigitC with
    | nil => rw [hr] at h2; simp at h2
    | cons y ys =>
      rw [hr] at h2
      have hy : y = '.' := by simpa using h2
      subst hy
      refine ⟨s.takeWhile isDigitC ++ '.' :: (ys.takeWhile isDigitC), b, c, ?_, ?_,
        hqpos, hb, hbs, hc, hcl, by rw [hdd, htr]⟩
      · conv_lhs => rw [← List.takeWhile_append_dropWhile isDigitC s, hr]
        conv_lhs =>
          rw [show ys = ys.takeWhile isDigitC ++ ys.dropWhile isDigitC from
            (List.takeWhile_append_dropWhile isDigitC ys).symm]
        rw [hr] at hbc
        simp only [List.tail_cons] at hbc
        rw [hbc]
        simp [List.append_assoc]
      · rw [hr] at h3 h4
        simp only [List.tail_cons] at h3 h4
        rw [numValue?_frac (by rw [Ne, ← List.length_eq_zero]; exact h1)
          (all_takeWhile isDigitC s) (by rw [Ne, ← List.length_eq_zero]; exact h3)
          (by omega) (all_takeWhile isDigitC ys)]
        rw [hr] at hq
        simp only [List.tail_cons] at hq
        rw [← hq]
  · -- integral shape
    obtain ⟨dsc, hdsc, hq, hqpos, hdd⟩ := finishParse_inv h
    obtain ⟨b, c, hbc, hb, hbs, hc, hcl, htr⟩ := descOf_inv hdsc
    refine ⟨s.takeWhile isDigitC, b, c, ?_, ?_, hqpos, hb, hbs, hc, hcl,
      by rw [hdd, htr]⟩
    · rw [List.append_assoc, ← hbc, List.takeWhile_append_dropWhile]
    · rw [numValue?_digits (by rw [Ne, ← List.length_eq_zero]; exact h1)
        (all_takeWhile isDigitC s)]
      rw [hq]
      norm_num [digitsToNat]

theorem parse_eq_amendedParse (s : List Char) : parseExpenseInput s = amendedParse s := by
  cases hp : parseExpenseInput s with
  | some v =>
    obtain ⟨q, d⟩ := v
    obtain ⟨a, b, c, hsq, hn, hq, hb, hbs, hc, hcl, hd⟩ := split_of_parse hp
    cases ha : amendedParse s with
    | none =>
      exfalso
      unfold amendedParse at ha
      rw [List.findSome?_eq_none_iff] at ha
      have hmem : ((a, b, c) : List Char × List Char × List Char) ∈ splits3 s := by
        rw [hsq]
        exact splits3_complete a b c
      have hz := ha _ hmem
      simp only [hn] at hz
      rw [if_pos ⟨hq, hb, hbs, hc, hcl⟩] at hz
      exact Option.noConfusion hz
    | some w =>
      obtain ⟨x, hx, hfx⟩ := List.exists_of_findSome?_eq_some ha
      obtain ⟨a2, b2, c2⟩ := x
      have hsx := mem_splits3 hx
      simp only [] at hsx hfx
      cases hn2 : numValue? a2 with
      | none =>
        simp only [hn2] at hfx
        exact Option.noConfusion hfx
      | some q2 =>
        simp only [hn2] at hfx
        split_ifs at hfx with hcond
        obtain ⟨hq2, hb2, hbs2, hc2, hcl2⟩ := hcond
        have hw := Option.some.inj hfx
        have hps := parse_of_split hn2 hq2 hb2 hbs2 hc2 hcl2
        rw [← hsx, hp] at hps
        rw [← hw]
        exact hps
  | none =>
    cases ha : amendedParse s with
    | none => rfl
    | some w =>
      exfalso
      obtain ⟨x, hx, hfx⟩ := List.exists_of_findSome?_eq_some ha
      obtain ⟨a2, b2, c2⟩ := x
      have hsx := mem_splits3 hx
      simp only [] at hsx hfx
      cases hn2 : numValue? a2 with
      | none =>
        simp only [hn2] at hfx
        exact Option.noConfusion hfx
      | some q2 =>
        simp only [hn2] at hfx
        split_ifs at hfx with hcond
        obtain ⟨hq2, hb2, hbs2, hc2, hcl2⟩ := hcond
        have hps := parse_of_split hn2 hq2 hb2 hbs2 hc2 hcl2
        rw [← hsx, hp] at hps
        exact Option.noConfusion hps

/-! ### Helper lemmas: the store operations -/

theorem getOrCreateUser_pending (db : DB) (uid : String) :
    ((getOrCreateUser db uid).1).pending = db.pending := by
  unfold getOrCreateUser
  cases db.users uid <;> rfl

theorem getOrCreateUser_expenses (db : DB) (uid : String) :
    ((getOrCreateUser db uid).1).expenses = db.expenses := by
  unfold getOrCreateUser
  cases db.users uid <;> rfl

theorem getOrCreateUser_customOf (db : DB) (uid v : String) :
    customOf ((getOrCreateUser db uid).1) v = customOf db v := by
  unfold getOrCreateUser customOf
  cases h : db.users uid with
  | some u => rfl
  | none =>
    simp only []
    by_cases hv : v = uid
    · subst hv
      rw [if_pos rfl, h]
    · rw [if_neg hv]

theorem getOrCreateUser_users_self (db : DB) (uid : String) :
    ((getOrCreateUser db uid).1).users uid = some ((getOrCreateUser db uid).2) := by
  unfold getOrCreateUser
  cases h : db.users uid with
  | some u => simpa using h
  | none => simp

theorem getOrCreateUser_snd (db : DB) (uid : String) :
    ((getOrCreateUser db uid).2).customCategories = customOf db uid := by
  unfold getOrCreateUser customOf
  cases db.users uid <;> rfl

theorem getOrCreateUser_stable (db : DB) (uid : String) :
    getOrCreateUser ((getOrCreateUser db uid).1) uid =
      ((getOrCreateUser db uid).1, (getOrCreateUser db uid).2) := by
  rw [getOrCreateUser.eq_def, getOrCreateUser_users_self db uid]

theorem getUserCategories_snd (db : DB) (uid : String) :
    (getUserCategories db uid).2 = DEFAULT_CATEGORIES ++ customOf db uid := by
  unfold getUserCategories
  rw [getOrCreateUser_snd]

/-! ### Helper lemmas: the category-selection handler -/

theorem handle_pending_none (db : DB) (uid : String) (idx now : Nat)
    (iOk dOk sOk : Bool) (h : db.pending uid = none) :
    handleCategorySelection db uid idx now iOk dOk sOk =
      ((getOrCreateUser db uid).1, Output.sessionExpired) := by
  unfold handleCategorySelection catPhase1
  rw [h]
  rfl

theorem handle_pending_some (db : DB) (uid : String) (idx now : Nat)
    (iOk dOk sOk : Bool) (p : PendingRow) (h : db.pending uid = some p) :
    handleCategorySelection db uid idx now iOk dOk sOk =
      catPhase2 ((getOrCreateUser db uid).1) uid (some p) idx now iOk dOk sOk := by
  unfold handleCategorySelection catPhase1
  rw [h]

theorem catPhase2_some_snd (db : DB) (uid : String) (p : PendingRow) (idx now : Nat)
    (iOk dOk sOk : Bool) :
    (catPhase2 db uid (some p) idx now iOk dOk sOk).2 =
      if iOk then Output.saved p.amount p.description
        ((DEFAULT_CATEGORIES ++ customOf db uid)[idx]?)
      else Output.saveFailed := by
  have h : (catPhase2 db uid (some p) idx now iOk dOk sOk).2 =
      if iOk then Output.saved p.amount p.description ((getUserCategories db uid).2[idx]?)
      else Output.saveFailed := rfl
  rw [h, getUserCategories_snd]

theorem catPhase2_some_expenses (db : DB) (uid : String) (p : PendingRow)
    (idx now : Nat) (iOk dOk sOk : Bool) :
    (catPhase2 db uid (some p) idx now iOk dOk sOk).1.expenses =
      if iOk then db.expenses ++
        [⟨uid, p.amount, p.description,
          (DEFAULT_CATEGORIES ++ customOf db uid)[idx]?, now⟩]
      else db.expenses := by
  have h : (catPhase2 db uid (some p) idx now iOk dOk sOk).1.expenses =
      if iOk then ((getUserCategories db uid).1).expenses ++
        [⟨uid, p.amount, p.description, (getUserCategories db uid).2[idx]?, now⟩]
      else ((getUserCategories db uid).1).expenses := by
    cases iOk <;> cases dOk <;> cases sOk <;> rfl
  rw [h, getUserCategories_snd]
  unfold getUserCategories
  rw [getOrCreateUser_expenses]

theorem catPhase2_some_pending_self (db : DB) (uid : String) (p : PendingRow)
    (idx now : Nat) (iOk sOk : Bool) :
    (catPhase2 db uid (some p) idx now iOk true sOk).1.pending uid = none := by
  unfold catPhase2 sweep
  cases iOk <;> cases sOk <;> simp

theorem catPhase2_some_pending_stale (db : DB) (uid v : String) (p q : PendingRow)
    (idx now : Nat) (iOk dOk : Bool) (hv : db.pending v = some q)
    (hq : q.createdAt < now - 3600000) :
    (catPhase2 db uid (some p) idx now iOk dOk true).1.pending v = none := by
  unfold catPhase2 sweep getUserCategories
  by_cases hvu : v = uid
  · subst hvu
    cases iOk <;> cases dOk <;> simp [getOrCreateUser_pending, hv, hq]
  · cases iOk <;> cases dOk <;> simp [hvu, getOrCreateUser_pending, hv, hq]

theorem catPhase2_some_sweep_indep (db : DB) (uid : String) (p : PendingRow)
    (idx now : Nat) (iOk dOk : Bool) :
    (catPhase2 db uid (some p) idx now iOk dOk true).2 =
      (catPhase2 db uid (some p) idx now iOk dOk false).2 ∧
    (catPhase2 db uid (some p) idx now iOk dOk true).1.expenses =
      (catPhase2 db uid (some p) idx now iOk dOk false).1.expenses := by
  refine ⟨rfl, ?_⟩
  cases iOk <;> cases dOk <;> rfl

/-! ### Claim C9 -/

/-- C9 (confirmed): for every store state and every user,
`getUserCategories` returns the fixed list of 12 default categories in their
canonical order concatenated with that user's current custom categories in
stored order; the list is a function of the state passed in at each call
(recomputed, never cached). -/
theorem C9_effective_categories (db : DB) (uid : String) :
    (getUserCategories db uid).2 = DEFAULT_CATEGORIES ++ customOf db uid ∧
    DEFAULT_CATEGORIES.length = 12 :=
  ⟨getUserCategories_snd db uid, rfl⟩

/-! ### Claim C6 -/

/-- C6 (confirmed): when a category-selection event finds no pending row for
the user, the handler answers only the session-expired notice and has no
further effect: the ledger is unchanged, the pending relation is unchanged,
and every user's custom category list is unchanged. -/
theorem C6_session_expired (db : DB) (uid v : String) (idx now : Nat)
    (iOk dOk sOk : Bool) (h : db.pending uid = none) :
    (handleCategorySelection db uid idx now iOk dOk sOk).2 = Output.sessionExpired ∧
    (handleCategorySelection db uid idx now iOk dOk sOk).1.expenses = db.expenses ∧
    (handleCategorySelection db uid idx now iOk dOk sOk).1.pending = db.pending ∧
    customOf (handleCategorySelection db uid idx now iOk dOk sOk).1 v =
      customOf db v := by
  rw [handle_pending_none db uid idx now iOk dOk sOk h]
  exact ⟨rfl, getOrCreateUser_expenses db uid, getOrCreateUser_pending db uid,
    getOrCreateUser_customOf db uid v⟩

/-- C6 witness: a concrete selection event against the empty store. -/
theorem C6_session_expired_witness :
    (handleCategorySelection dbEmpty "u" 0 0 true true true).2 =
      Output.sessionExpired ∧
    (handleCategorySelection dbEmpty "u" 0 0 true true true).1.expenses =
      dbEmpty.expenses ∧
    (handleCategorySelection dbEmpty "u" 0 0 true true true).1.pending =
      dbEmpty.pending ∧
    customOf (handleCategorySelection dbEmpty "u" 0 0 true true true).1 "u" =
      customOf dbEmpty "u" :=
  C6_session_expired dbEmpty "u" "u" 0 0 true true true rfl

/-! ### Claim C1 -/

/-- C1 counterexample: a concrete state with a pending row for `"u"`.  The
ledger append fails (`iOk = false`); the handler reports the generic failure
message, and no expense is written, but the pending row has nevertheless
been deleted — the delete runs in `Promise.all` alongside the insert, so
state is not left as it was before the attempt. -/
theorem C1_counterexample :
    dbEx.pending "u" = some ⟨50, "lunch", 1000⟩ ∧
    (handleCategorySelection dbEx "u" 0 7200000 false true true).2 =
      Output.saveFailed ∧
    (handleCategorySelection dbEx "u" 0 7200000 false true true).1.pending "u" =
      none := by
  refine ⟨rfl, rfl, ?_⟩
  decide

/-- C1 (corrected) amended: if the ledger append fails during the commit
step of a category selection, no committed expense is written (the append
itself is all-or-nothing) and the user is shown the generic failure message,
but the pending expense row IS deleted nonetheless, because the delete runs
in parallel with the append — state is not left as it was before the
attempt. -/
theorem C1_amended_theorem (db : DB) (uid : String) (idx now : Nat)
    (p : PendingRow) (h : db.pending uid = some p) :
    (handleCategorySelection db uid idx now false true true).2 =
      Output.saveFailed ∧
    (handleCategorySelection db uid idx now false true true).1.expenses =
      db.expenses ∧
    (handleCategorySelection db uid idx now false true true).1.pending uid =
      none := by
  rw [handle_pending_some db uid idx now false true true p h]
  refine ⟨?_, ?_, ?_⟩
  · rw [catPhase2_some_snd]
    rfl
  · rw [catPhase2_some_expenses]
    rw [getOrCreateUser_expenses]
    rfl
  · exact catPhase2_some_pending_self _ _ _ _ _ _ _

/-! ### Claim C4 -/

/-- C4 (confirmed): for a selection payload `cat_i` with `i` at or beyond
the length of the user's current effective category list, the handler
performs no bounds check: with a pending row present it still appends a
committed expense whose category field is the out-of-range lookup result
(`none`, i.e. JS `undefined`) and deletes the pending row, instead of
rejecting the stale token. -/
theorem C4_out_of_range (db : DB) (uid : String) (idx now : Nat)
    (p : PendingRow) (sOk : Bool) (hp : db.pending uid = some p)
    (hi : (DEFAULT_CATEGORIES ++ customOf db uid).length ≤ idx) :
    (handleCategorySelection db uid idx now true true sOk).2 =
      Output.saved p.amount p.description none ∧
    (handleCategorySelection db uid idx now true true sOk).1.expenses =
      db.expenses ++ [⟨uid, p.amount, p.description, none, now⟩] ∧
    (handleCategorySelection db uid idx now true true sOk).1.pending uid =
      none := by
  have hcat : (DEFAULT_CATEGORIES ++
      customOf ((getOrCreateUser db uid).1) uid)[idx]? = none := by
    apply List.getElem?_eq_none
    rw [List.length_append] at hi ⊢
    rw [getOrCreateUser_customOf]
    exact hi
  rw [handle_pending_some db uid idx now true true sOk p hp]
  refine ⟨?_, ?_, ?_⟩
  · rw [catPhase2_some_snd, hcat]
    rfl
  · rw [catPhase2_some_expenses, hcat, getOrCreateUser_expenses]
    rfl
  · exact catPhase2_some_pending_self _ _ _ _ _ _ _

/-- C4 witness: index 13 against a store whose effective list has 13
entries (12 defaults plus one custom category). -/
theorem C4_out_of_range_witness :
    (handleCategorySelection dbEx "u" 13 2000 true true true).2 =
      Output.saved 50 "lunch" none ∧
    (handleCategorySelection dbEx "u" 13 2000 true true true).1.expenses =
      dbEx.expenses ++ [⟨"u", 50, "lunch", none, 2000⟩] ∧
    (handleCategorySelection dbEx "u" 13 2000 true true true).1.pending "u" =
      none :=
  C4_out_of_range dbEx "u" 13 2000 ⟨50, "lunch", 1000⟩ true rfl (by decide)

/-! ### Claim C5 -/

/-- C5 (confirmed): whenever a category-selection event runs its
opportunistic sweep (i.e. a pending row was found for the selecting user),
every pending row strictly older than one hour — for any user, not only the
selecting one — is deleted, so a subsequent read of that row returns
`none`; and the sweep never affects the user-visible outcome: the reply and
the ledger contents are identical whether or not the sweep delete
succeeds. -/
theorem C5_sweep (db : DB) (uid v : String) (idx now : Nat) (iOk dOk : Bool)
    (p q : PendingRow) (hpend : db.pending uid = some p)
    (hv : db.pending v = some q) (hq : q.createdAt < now - 3600000) :
    (handleCategorySelection db uid idx now iOk dOk true).1.pending v = none ∧
    (handleCategorySelection db uid idx now iOk dOk true).2 =
      (handleCategorySelection db uid idx now iOk dOk false).2 ∧
    (handleCategorySelection db uid idx now iOk dOk true).1.expenses =
      (handleCategorySelection db uid idx now iOk dOk false).1.expenses := by
  rw [handle_pending_some db uid idx now iOk dOk true p hpend,
    handle_pending_some db uid idx now iOk dOk false p hpend]
  refine ⟨?_, ?_, ?_⟩
  · apply catPhase2_some_pending_stale _ _ _ _ q _ _ _ _ _ hq
    rw [getOrCreateUser_pending]
    exact hv
  · exact (catPhase2_some_sweep_indep _ _ _ _ _ _ _).1
  · exact (catPhase2_some_sweep_indep _ _ _ _ _ _ _).2

/-- C5 witness: user `"v"`'s hour-old pending row is swept away by `"u"`'s
selection event, and the outcome for `"u"` is the same as without the
sweep. -/
theorem C5_sweep_witness :
    (handleCategorySelection dbTwo "u" 0 7200001 true true true).1.pending "v" =
      none ∧
    (handleCategorySelection dbTwo "u" 0 7200001 true true true).2 =
      (handleCategorySelection dbTwo "u" 0 7200001 true true false).2 ∧
    (handleCategorySelection dbTwo "u" 0 7200001 true true true).1.expenses =
      (handleCategorySelection dbTwo "u" 0 7200001 true true false).1.expenses :=
  C5_sweep dbTwo "u" "v" 0 7200001 true true ⟨25, "coffee", 7000000⟩
    ⟨3, "tea", 0⟩ rfl rfl (by decide)

/-! ### Claim C2 -/

/-- C2 counterexample: two overlapping selection events for the same user on
a store holding exactly one pending row.  Both events run their phase-1 read
before either runs its phase-2 commit (a legal interleaving: the read and
the delete are separate store operations).  Both reads observe the pending
row, so both commits append a ledger row: the ledger ends with two
committed expenses and neither event reports session-expired — the
read-check-delete sequence is not atomic per user. -/
theorem C2_counterexample :
    dbEx.pending "u" = some ⟨50, "lunch", 1000⟩ ∧
    dbEx.expenses.length = 0 ∧
    (let s1 := catPhase1 dbEx "u"
     let s2 := catPhase1 s1.1 "u"
     let t1 := catPhase2 s2.1 "u" s1.2 0 7200000 true true true
     let t2 := catPhase2 t1.1 "u" s2.2 0 7200000 true true true
     t1.2 = Output.saved 50 "lunch" (some "🍔 Food") ∧
     t2.2 = Output.saved 50 "lunch" (some "🍔 Food") ∧
     t2.1.expenses.length = 2) := by
  decide

/-- C2 (corrected) amended: the read and the delete of the pending row are
separate store operations, not an atomic read-check-delete.  When the two
selection events for the same user do not overlap — the second event's read
runs after the first event's delete — exactly one event appends a
CommittedExpense and the other observes the absent row and reports
session-expired; but an interleaving in which both events read before
either deletes makes both commit (see the counterexample). -/
theorem C2_amended_theorem (db : DB) (uid : String) (idx1 idx2 now1 now2 : Nat)
    (p : PendingRow) (h : db.pending uid = some p) :
    (handleCategorySelection db uid idx1 now1 true true true).2 =
      Output.saved p.amount p.description
        ((DEFAULT_CATEGORIES ++ customOf db uid)[idx1]?) ∧
    (handleCategorySelection
        (handleCategorySelection db uid idx1 now1 true true true).1
        uid idx2 now2 true true true).2 = Output.sessionExpired ∧
    (handleCategorySelection
        (handleCategorySelection db uid idx1 now1 true true true).1
        uid idx2 now2 true true true).1.expenses.length =
      db.expenses.length + 1 := by
  have h1 := handle_pending_some db uid idx1 now1 true true true p h
  have hnone : (handleCategorySelection db uid idx1 now1 true true true).1.pending
      uid = none := by
    rw [h1]
    exact catPhase2_some_pending_self _ _ _ _ _ _ _
  have h2 := handle_pending_none
    (handleCategorySelection db uid idx1 now1 true true true).1 uid idx2 now2
    true true true hnone
  refine ⟨?_, ?_, ?_⟩
  · rw [h1, catPhase2_some_snd, getOrCreateUser_customOf]
    rfl
  · rw [h2]
  · rw [h2, getOrCreateUser_expenses, h1, catPhase2_some_expenses]
    rw [if_pos rfl, List.length_append, getOrCreateUser_expenses]
    rfl

/-- C2 amended witness: the sequential two-event run on the concrete
store. -/
theorem C2_amended_witness :
    (handleCategorySelection dbEx "u" 0 1000 true true true).2 =
      Output.saved 50 "lunch"
        ((DEFAULT_CATEGORIES ++ customOf dbEx "u")[0]?) ∧
    (handleCategorySelection
        (handleCategorySelection dbEx "u" 0 1000 true true true).1
        "u" 1 2000 true true true).2 = Output.sessionExpired ∧
    (handleCategorySelection
        (handleCategorySelection dbEx "u" 0 1000 true true true).1
        "u" 1 2000 true true true).1.expenses.length =
      dbEx.expenses.length + 1 :=
  C2_amended_theorem dbEx "u" 0 1 1000 2000 ⟨50, "lunch", 1000⟩ rfl

/-- C1 amended witness: the concrete state of the counterexample. -/
theorem C1_amended_witness :
    (handleCategorySelection dbEx "u" 0 7200000 false true true).2 =
      Output.saveFailed ∧
    (handleCategorySelection dbEx "u" 0 7200000 false true true).1.expenses =
      dbEx.expenses ∧
    (handleCategorySelection dbEx "u" 0 7200000 false true true).1.pending "u" =
      none :=
  C1_amended_theorem dbEx "u" 0 7200000 ⟨50, "lunch", 1000⟩ rfl

/-! ### Helper lemmas: the category add / remove handlers -/

theorem getUserCategories_after (db : DB) (uid : String) :
    getUserCategories ((getOrCreateUser db uid).1) uid =
      ((getOrCreateUser db uid).1, DEFAULT_CATEGORIES ++ customOf db uid) := by
  unfold getUserCategories
  rw [getOrCreateUser_stable]
  exact congrArg (fun l => ((getOrCreateUser db uid).1, DEFAULT_CATEGORIES ++ l))
    (getOrCreateUser_snd db uid)

theorem handleAdd_dup (db : DB) (uid label : String) (ok : Bool)
    (hne : label ≠ "") (hmem : label ∈ DEFAULT_CATEGORIES ++ customOf db uid) :
    handleAdd db uid label ok =
      ((getOrCreateUser db uid).1, Output.categoryExists) := by
  have hcond : (getUserCategories ((getOrCreateUser db uid).1) uid).2.contains
      label = true := by
    rw [getUserCategories_after]
    exact List.elem_iff.mpr hmem
  unfold handleAdd
  rw [if_neg hne, if_pos hcond, getUserCategories_after]

theorem customOf_eq_of_users (A : DB) (uid : String) (l : List String)
    (h : A.users uid = some ⟨l⟩) : customOf A uid = l := by
  unfold customOf
  rw [h]

theorem handleAdd_new_eval (db : DB) (uid label : String) (hne : label ≠ "")
    (hmem : label ∉ DEFAULT_CATEGORIES ++ customOf db uid) :
    (handleAdd db uid label true).2 = Output.categoryAdded label ∧
    customOf (handleAdd db uid label true).1 uid = customOf db uid ++ [label] := by
  have hcond : ¬ ((getUserCategories ((getOrCreateUser db uid).1) uid).2.contains
      label = true) := by
    rw [getUserCategories_after]
    intro hx
    exact hmem (List.elem_iff.mp hx)
  unfold handleAdd
  rw [if_neg hne, if_neg hcond, if_pos rfl]
  refine ⟨rfl, customOf_eq_of_users _ _ _ ?_⟩
  simp [getOrCreateUser_snd]

theorem handleAdd_pending (db : DB) (uid label : String) (ok : Bool) :
    (handleAdd db uid label ok).1.pending = db.pending := by
  have hgp : ((getUserCategories ((getOrCreateUser db uid).1) uid).1).pending =
      db.pending := by
    unfold getUserCategories
    rw [getOrCreateUser_pending, getOrCreateUser_pending]
  unfold handleAdd
  split_ifs <;> first | rfl | exact hgp

theorem handleRemoveCmd_pending (db : DB) (uid : String) :
    (handleRemoveCmd db uid).1.pending = db.pending := by
  unfold handleRemoveCmd
  split_ifs <;> exact getOrCreateUser_pending db uid

theorem handleRemoveSelect_pending (db : DB) (uid : String) (idx : Nat) (ok : Bool) :
    (handleRemoveSelect db uid idx ok).1.pending = db.pending := by
  unfold handleRemoveSelect
  split_ifs <;> exact getOrCreateUser_pending db uid

/-- The index-removal `filter((_, i) => i !== k)` keeps every entry whose
position differs from `k`; over positions all above `k` it keeps
everything. -/
theorem enumFrom_filter_ne_of_lt (xs : List String) (n k : Nat) (h : k < n) :
    ((List.enumFrom n xs).filter (fun p => p.1 != k)).map Prod.snd = xs := by
  induction xs generalizing n with
  | nil => rfl
  | cons x t ih =>
    rw [List.enumFrom_cons, List.filter_cons,
      if_pos (show ((n, x).1 != k) = true from bne_iff_ne.mpr (Nat.ne_of_gt h)),
      List.map_cons, ih (n + 1) (Nat.lt_succ_of_lt h)]

/-- The index-removal filter, started at position `n` and removing position
`n + idx`, removes exactly the entry at offset `idx` and shifts the rest
down. -/
theorem enumFrom_filter_ne (xs : List String) : ∀ (idx n : Nat),
    ((List.enumFrom n xs).filter (fun p => p.1 != (n + idx))).map Prod.snd =
      xs.take idx ++ xs.drop (idx + 1) := by
  induction xs with
  | nil => intro idx n; simp
  | cons x t ih =>
    intro idx n
    rw [List.enumFrom_cons, List.filter_cons]
    cases idx with
    | zero =>
      rw [if_neg (show ¬ ((n, x).1 != (n + 0)) = true by simp)]
      rw [enumFrom_filter_ne_of_lt t (n + 1) (n + 0) (by omega)]
      simp
    | succ j =>
      rw [if_pos (show ((n, x).1 != (n + (j + 1))) = true from
        bne_iff_ne.mpr (by omega))]
      rw [List.map_cons]
      have hn : n + (j + 1) = (n + 1) + j := by omega
      rw [hn, ih j (n + 1), List.take_succ_cons, List.drop_succ_cons,
        List.cons_append]

theorem enum_filter_eraseIdx (xs : List String) (idx : Nat) :
    (xs.enum.filter (fun p => p.1 != idx)).map Prod.snd =
      xs.take idx ++ xs.drop (idx + 1) := by
  have h := enumFrom_filter_ne xs idx 0
  rw [Nat.zero_add] at h
  exact h

theorem handleRemoveSelect_oob (db : DB) (uid : String) (idx : Nat) (ok : Bool)
    (h : (customOf db uid).length ≤ idx) :
    handleRemoveSelect db uid idx ok =
      ((getOrCreateUser db uid).1, Output.invalidCategory) := by
  have hc : ((getOrCreateUser db uid).2).customCategories.length ≤ idx := by
    rw [getOrCreateUser_snd]
    exact h
  unfold handleRemoveSelect
  rw [if_pos hc]

theorem handleRemoveSelect_ok_eval (db : DB) (uid : String) (idx : Nat)
    (h : idx < (customOf db uid).length) :
    (handleRemoveSelect db uid idx true).2 =
      Output.categoryRemoved ((customOf db uid).getD idx "") ∧
    customOf (handleRemoveSelect db uid idx true).1 uid =
      (customOf db uid).take idx ++ (customOf db uid).drop (idx + 1) := by
  have hc : ¬ (((getOrCreateUser db uid).2).customCategories.length ≤ idx) := by
    rw [getOrCreateUser_snd]
    omega
  unfold handleRemoveSelect
  rw [if_neg hc, if_pos rfl]
  constructor
  · simp only []
    rw [getOrCreateUser_snd]
  · refine (customOf_eq_of_users _ _
      (((customOf db uid).enum.filter (fun p => p.1 != idx)).map Prod.snd)
      ?_).trans (enum_filter_eraseIdx _ _)
    simp [getOrCreateUser_snd]

/-! ### Claim C7 -/

/-- C7 (confirmed): `/add` with a (trimmed, non-empty) label returns
already-exists and leaves the user's custom category list unchanged when
the label is byte-for-byte equal to an entry of the current effective list
(the 12 defaults plus the custom list as stored at check time); otherwise
it appends the label to the custom list, so a second identical add returns
already-exists. -/
theorem C7_add_category (db : DB) (uid label : String) (ok1 ok2 : Bool)
    (hne : label ≠ "") :
    (label ∈ DEFAULT_CATEGORIES ++ customOf db uid →
      (handleAdd db uid label ok1).2 = Output.categoryExists ∧
      customOf (handleAdd db uid label ok1).1 uid = customOf db uid) ∧
    (label ∉ DEFAULT_CATEGORIES ++ customOf db uid →
      (handleAdd db uid label true).2 = Output.categoryAdded label ∧
      customOf (handleAdd db uid label true).1 uid = customOf db uid ++ [label]) ∧
    (label ∉ DEFAULT_CATEGORIES ++ customOf db uid →
      (handleAdd (handleAdd db uid label true).1 uid label ok2).2 =
        Output.categoryExists) := by
  refine ⟨?_, ?_, ?_⟩
  · intro hmem
    rw [handleAdd_dup db uid label ok1 hne hmem]
    exact ⟨rfl, getOrCreateUser_customOf db uid uid⟩
  · intro hmem
    exact handleAdd_new_eval db uid label hne hmem
  · intro hmem
    have hcust := (handleAdd_new_eval db uid label hne hmem).2
    have hmem2 : label ∈ DEFAULT_CATEGORIES ++
        customOf (handleAdd db uid label true).1 uid := by
      rw [hcust]
      exact List.mem_append.mpr (Or.inr (List.mem_concat_self _ _))
    rw [handleAdd_dup (handleAdd db uid label true).1 uid label ok2 hne hmem2]

/-- C7 witness: adding `"🎮 Gaming"` to a fresh user succeeds and appends;
adding it again returns already-exists. -/
theorem C7_add_category_witness :
    ((handleAdd dbEmpty "u" "🎮 Gaming" true).2 =
      Output.categoryAdded "🎮 Gaming" ∧
     customOf (handleAdd dbEmpty "u" "🎮 Gaming" true).1 "u" =
      customOf dbEmpty "u" ++ ["🎮 Gaming"]) ∧
    (handleAdd (handleAdd dbEmpty "u" "🎮 Gaming" true).1 "u" "🎮 Gaming"
      true).2 = Output.categoryExists :=
  ⟨(C7_add_category dbEmpty "u" "🎮 Gaming" true true (by decide)).2.1
      (by decide),
   (C7_add_category dbEmpty "u" "🎮 Gaming" true true (by decide)).2.2
      (by decide)⟩

/-! ### Claim C8 -/

/-- C8 (confirmed): the removal callback returns the invalid-category notice
and leaves the custom list unchanged for every index at or beyond the
custom list's length (the defaults are never addressable); for every valid
index it removes exactly that entry and shifts the subsequent entries down
by one. -/
theorem C8_remove_category (db : DB) (uid : String) (idx : Nat) (ok : Bool) :
    ((customOf db uid).length ≤ idx →
      (handleRemoveSelect db uid idx ok).2 = Output.invalidCategory ∧
      customOf (handleRemoveSelect db uid idx ok).1 uid = customOf db uid) ∧
    (idx < (customOf db uid).length →
      (handleRemoveSelect db uid idx true).2 =
        Output.categoryRemoved ((customOf db uid).getD idx "") ∧
      customOf (handleRemoveSelect db uid idx true).1 uid =
        (customOf db uid).take idx ++ (customOf db uid).drop (idx + 1)) := by
  constructor
  · intro h
    rw [handleRemoveSelect_oob db uid idx ok h]
    exact ⟨rfl, getOrCreateUser_customOf db uid uid⟩
  · intro h
    exact handleRemoveSelect_ok_eval db uid idx h

/-- C8 witness: on custom list `["A", "B", "C"]`, index 3 is rejected with
no change, and removing index 0 yields `["B", "C"]`. -/
theorem C8_remove_category_witness :
    ((handleRemoveSelect dbABC "u" 3 true).2 = Output.invalidCategory ∧
     customOf (handleRemoveSelect dbABC "u" 3 true).1 "u" = customOf dbABC "u") ∧
    ((handleRemoveSelect dbABC "u" 0 true).2 = Output.categoryRemoved "A" ∧
     customOf (handleRemoveSelect dbABC "u" 0 true).1 "u" = ["B", "C"]) :=
  ⟨(C8_remove_category dbABC "u" 3 true).1 (by decide),
   (C8_remove_category dbABC "u" 0 true).2 (by decide)⟩

/-! ### Claim C10 -/

/-- C10 (confirmed): while a pending row exists it is untouched by every
other command: `/start`, `/expenses`, `/day`, `/month`, `/categories`,
`/add`, `/remove` and the removal callback leave the pending relation
exactly as it was; the reporting commands also leave every custom category
list unchanged; and the reporting replies do not consult pending state (the
reply is identical under any pending relation). -/
theorem C10_frame (db : DB) (uid v : String) (cutoff : Nat) (label : String)
    (idx : Nat) (ok : Bool) (pend : String → Option PendingRow) :
    (handleStart db).1 = db ∧
    (handleExpenses db uid).1.pending = db.pending ∧
    (handleDay db uid cutoff).1.pending = db.pending ∧
    (handleMonth db uid cutoff).1.pending = db.pending ∧
    (handleCategoriesCmd db uid).1.pending = db.pending ∧
    (handleAdd db uid label ok).1.pending = db.pending ∧
    (handleRemoveCmd db uid).1.pending = db.pending ∧
    (handleRemoveSelect db uid idx ok).1.pending = db.pending ∧
    customOf (handleExpenses db uid).1 v = customOf db v ∧
    customOf (handleDay db uid cutoff).1 v = customOf db v ∧
    customOf (handleMonth db uid cutoff).1 v = customOf db v ∧
    customOf (handleCategoriesCmd db uid).1 v = customOf db v ∧
    (handleExpenses { db with pending := pend } uid).2 =
      (handleExpenses db uid).2 ∧
    (handleDay { db with pending := pend } uid cutoff).2 =
      (handleDay db uid cutoff).2 ∧
    (handleMonth { db with pending := pend } uid cutoff).2 =
      (handleMonth db uid cutoff).2 ∧
    (handleCategoriesCmd { db with pending := pend } uid).2 =
      (handleCategoriesCmd db uid).2 :=
  ⟨rfl,
   getOrCreateUser_pending db uid,
   getOrCreateUser_pending db uid,
   getOrCreateUser_pending db uid,
   getOrCreateUser_pending db uid,
   handleAdd_pending db uid label ok,
   handleRemoveCmd_pending db uid,
   handleRemoveSelect_pending db uid idx ok,
   getOrCreateUser_customOf db uid v,
   getOrCreateUser_customOf db uid v,
   getOrCreateUser_customOf db uid v,
   getOrCreateUser_customOf db uid v,
   rfl, rfl, rfl, rfl⟩

/-! ### Claim C3 -/

/-- C3 counterexample: on the input `"50  "` (digits then two spaces) the
source parser succeeds with amount 50 and an EMPTY description — the regex
`\s+(.+)$` lets `(.+)` capture the final space, `match[2].trim()` is empty,
and the code never checks the description for non-emptiness — while the
claimed grammar (which requires the trimmed remainder to be non-empty)
rejects every decomposition of this input, i.e. demands `none`. -/
theorem C3_counterexample :
    parseExpenseInput "50  ".toList = some ((50 : ℚ), []) ∧
    claimedParse "50  ".toList = none := by
  constructor
  · have hd : digitsToNat ['5', '0'] = 50 := rfl
    have hn : numValue? ['5', '0'] = some ((50 : ℚ)) := by
      rw [numValue?_digits (by decide) (by decide), hd]
      norm_num
    have h := @parse_of_split ['5', '0'] [' '] [' '] 50 hn (by norm_num)
      (by decide) (by decide) (by decide) (by decide)
    have he : "50  ".toList = ['5', '0'] ++ [' '] ++ [' '] := rfl
    rw [he, h]
    rfl
  · decide

/-- C3 (corrected) amended: for every input text, parse returns
`(amount, description)` exactly when the text matches a positive decimal
number with at most two fraction digits, followed by whitespace, followed
by a non-empty remainder containing no line-terminator characters; the
returned amount is that number and the returned description is the trimmed
remainder (possibly empty — the non-emptiness of the trimmed remainder is
not checked).  Every input failing this grammar yields `none` rather than
an exception. -/
theorem C3_parse_amended (s : List Char) :
    parseExpenseInput s = amendedParse s :=
  parse_eq_amendedParse s

end ExpenseBot
